import Mathlib

/-!
Verification development for the `ivs-suspiciousprocessmonitor` scanner
(`src/main.py`).  The Python program is shallowly embedded:

* HTTP fetching (`requests.get`) is an external collaborator, modelled as an
  oracle returning `none` for a raised `requests.exceptions.RequestException`
  and `some` response otherwise.  `Response.raise_for_status()` raises exactly
  for status codes in `[400, 600)`; this is `raisesForStatus`.
* HTML parsing (`BeautifulSoup`) is an external collaborator.  For the crawl,
  a page is modelled by the list of absolute URLs obtained from its
  `<a href=...>` targets after `urljoin` resolution, in document order
  (`CrawlResp.links`).  For the version scraper, a page is modelled by its raw
  text plus the parsed list of `<meta>` tags (`PageResp.metas`).
* `urllib.parse.urljoin` on plain strings (used by the probe routines and the
  version scraper) is an external collaborator passed as a parameter `uj`.
* A parsed URL (`urlparse` view) is a record of scheme, netloc (host:port) and
  path.  The crawl compares only `netloc`, exactly as the source does.
* Python's unbounded `while to_visit:` loop is embedded as the fuel-indexed
  `crawlFuel`; `crawlFuel_isSome` proves that the explicitly computable fuel
  `initFuel` always suffices, and `crawl_website` runs the loop with that fuel.
* `crawlFuel` additionally records every `to_visit.append` as an
  `EnqueueEvent`, carrying the visited set and the frontier as they were at
  the moment of the append.
* Exceptions that the Python code lets escape a component are modelled by
  `Except.error`; locally absorbed exceptions never surface.
-/

/-- A parsed URL, the `urlparse` view used by `crawl_website`:
scheme, netloc (host plus optional port) and the rest of the URL. -/
structure Url where
  scheme : String
  netloc : String
  path : String
deriving DecidableEq, Repr

/-- Response observed by `crawl_website`: the HTTP status code and the list of
absolute same-document-order link targets (`soup.find_all('a', href=True)`
resolved with `urljoin` against the fetched URL). -/
structure CrawlResp where
  status_code : Nat
  links : List Url
deriving DecidableEq, Repr

/-- Response observed by the probe routines: status code and body text. -/
structure HttpResp where
  status_code : Nat
  text : String
deriving DecidableEq, Repr

/-- A parsed `<meta>` tag: its optional `name` attribute and optional
`content` attribute. -/
structure MetaTag where
  name : Option String
  content : Option String
deriving DecidableEq, Repr

/-- Response observed by the version scraper: status code, raw body text and
the parsed list of `<meta>` tags of that body. -/
structure PageResp where
  status_code : Nat
  text : String
  metas : List MetaTag
deriving DecidableEq, Repr

/-- `Response.raise_for_status()` raises `requests.exceptions.HTTPError`
exactly for 4xx and 5xx status codes. -/
def raisesForStatus (s : Nat) : Bool :=
  decide (400 ≤ s ∧ s < 600)

/-- `leadsWith needle l` is true when `needle` is an initial segment of `l`. -/
def leadsWith : List Char → List Char → Bool
  | [], _ => true
  | _ :: _, [] => false
  | a :: as, b :: bs => a == b && leadsWith as bs

/-- `hasSubList needle l` is true when `needle` occurs contiguously in `l`. -/
def hasSubList (needle : List Char) : List Char → Bool
  | [] => leadsWith needle []
  | c :: cs => leadsWith needle (c :: cs) || hasSubList needle cs

/-- Python's `needle in hay` test on strings: contiguous substring search. -/
def strHas (hay needle : String) : Bool :=
  hasSubList needle.data hay.data

/-- Python's `needle in s.lower()` test: lowercase `s` character by
character, then search for the contiguous substring `needle`. -/
def strLowerHas (s needle : String) : Bool :=
  hasSubList needle.data (s.data.map Char.toLower)

/-- The candidate paths probed by `check_env_files` (`env_paths` in the
source), in source order. -/
def env_paths : List String :=
  [".env", ".env.example", "config/.env", "application/.env"]

/-- The candidate paths probed by `check_admin_panels` (`admin_paths` in the
source), in source order. -/
def admin_paths : List String :=
  ["admin", "administrator", "login", "wp-admin", "panel"]

/-- Embedding of `check_env_files(url)`.  For each candidate path the code
resolves it against the base URL, performs a GET (`none` models a raised
`RequestException`, which is caught and merely logged), calls
`raise_for_status`, and records a hit when the body contains `APP_KEY`. -/
def check_env_files (fetch : String → Option HttpResp)
    (uj : String → String → String) (url : String) : List String :=
  env_paths.filterMap fun path =>
    match fetch (uj url path) with
    | none => none
    | some response =>
      if raisesForStatus response.status_code then none
      else if strHas response.text "APP_KEY" then some (uj url path)
      else none

/-- Embedding of `check_admin_panels(url)`.  For each candidate path the code
resolves it, performs a GET, calls `raise_for_status` (whose `HTTPError` is
caught by the same handler as transport errors), and then records a hit when
the status code is 200 or 403. -/
def check_admin_panels (fetch : String → Option HttpResp)
    (uj : String → String → String) (url : String) : List String :=
  admin_paths.filterMap fun path =>
    match fetch (uj url path) with
    | none => none
    | some response =>
      if raisesForStatus response.status_code then none
      else if response.status_code == 200 || response.status_code == 403 then
        some (uj url path)
      else none

/-- The loop over `soup.find_all('meta')` in
`get_installed_software_versions`: a finding `Generator: <content>` for every
meta tag that has a `name` attribute containing `generator`
(case-insensitively) and that has a `content` attribute. -/
def generatorFindings (metas : List MetaTag) : List String :=
  metas.filterMap fun meta =>
    match meta.name with
    | none => none
    | some nm =>
      if strLowerHas nm "generator" then
        match meta.content with
        | some c => some ("Generator: " ++ c)
        | none => none
      else none

/-- A single-quote character as a string, used by the `wp_version` stripping
code. -/
def singleQuote : String :=
  (Char.ofNat 39).toString

/-- The `wp_version` extraction applied to the body of
`wp-includes/version.php`: when the body contains `wp_version =`, take the
first line containing it, split on `=`, take the second piece, strip
whitespace, drop semicolons and single quotes, and strip again. -/
def extractWpVersion (text : String) : Option String :=
  if strHas text "wp_version =" then
    match (text.splitOn "\n").find? (fun line => strHas line "wp_version =") with
    | none => none
    | some version_line =>
      some (((((version_line.splitOn "=").getD 1 "").trim.replace ";" "").replace
        singleQuote "").trim)
  else none

/-- The secondary `wp-includes/version.php` fetch of
`get_installed_software_versions`: its `RequestException` (and the
`raise_for_status` error) is caught locally, and a finding is appended when a
version string can be extracted. -/
def wpIncludesCheck (fetch : String → Option PageResp)
    (uj : String → String → String) (url : String)
    (version_info : List String) : List String :=
  match fetch (uj url "wp-includes/version.php") with
  | none => version_info
  | some r =>
    if raisesForStatus r.status_code then version_info
    else
      match extractWpVersion r.text with
      | some v =>
        version_info ++ ["WordPress Version from wp-includes/version.php: " ++ v]
      | none => version_info

/-- The final `if version_info:` of `get_installed_software_versions`. -/
def finishVersionInfo (version_info : List String) : List String :=
  if version_info.isEmpty then ["No version information found."] else version_info

/-- Embedding of `get_installed_software_versions(url)`.  A raised
`RequestException` on the primary fetch is caught and yields the
`Error fetching page.` finding.  Inside the `wp-content` branch the code
evaluates `generator_tag['content']`, which raises an uncaught `KeyError`
when the found `<meta name="generator">` tag has no `content` attribute; that
escaping exception is the `Except.error` result. -/
def get_installed_software_versions (fetch : String → Option PageResp)
    (uj : String → String → String) (url : String) : Except String (List String) :=
  match fetch url with
  | none => Except.ok ["Error fetching page."]
  | some response =>
    if raisesForStatus response.status_code then Except.ok ["Error fetching page."]
    else if strHas response.text "wp-content" then
      match response.metas.find? (fun m => m.name == some "generator") with
      | some generator_tag =>
        match generator_tag.content with
        | none => Except.error "KeyError: content"
        | some c =>
          Except.ok (finishVersionInfo (wpIncludesCheck fetch uj url
            (generatorFindings response.metas ++ ["WordPress site detected"] ++
              ["WordPress Generator tag: " ++ c])))
      | none =>
        Except.ok (finishVersionInfo (wpIncludesCheck fetch uj url
          (generatorFindings response.metas ++ ["WordPress site detected"])))
    else Except.ok (finishVersionInfo (generatorFindings response.metas))

/-- One `to_visit.append((absolute_url, current_depth + 1))` executed by
`crawl_website`, recording the appended URL and depth together with the
visited set and the frontier as they were at the moment of the append. -/
structure EnqueueEvent where
  url : Url
  depth : Int
  visitedBefore : List Url
  frontierBefore : List (Url × Int)
deriving DecidableEq, Repr

/-- The sequence of `EnqueueEvent`s produced while appending the filtered
links of one processed page: the frontier grows by one entry per append. -/
def enqueueEvents (visited : List Url) (frontier : List (Url × Int))
    (d : Int) : List Url → List EnqueueEvent
  | [] => []
  | l :: ls =>
    EnqueueEvent.mk l (d + 1) visited frontier ::
      enqueueEvents visited (frontier ++ [(l, d + 1)]) d ls

/-- Fuel-indexed embedding of the `while to_visit:` loop of
`crawl_website(url, depth)`.  Arguments after the fuel are the current
`visited` set and the current `to_visit` frontier; the result is the final
visited set together with the chronological list of all enqueue events, or
`none` when the fuel runs out (which `crawlFuel_isSome` rules out for the
fuel used by `crawl_website`).  Each iteration pops the front pair, skips it
when already visited or deeper than `maxDepth`, otherwise marks it visited,
fetches it, and on success appends every link whose netloc equals the seed's
netloc, paired with depth `current_depth + 1`. -/
def crawlFuel (fetch : Url → Option CrawlResp) (seed : Url) (maxDepth : Int) :
    Nat → List Url → List (Url × Int) → Option (List Url × List EnqueueEvent)
  | 0, _, _ => none
  | _ + 1, visited, [] => some (visited, [])
  | n + 1, visited, (current_url, current_depth) :: rest =>
    if current_url ∈ visited ∨ maxDepth < current_depth then
      crawlFuel fetch seed maxDepth n visited rest
    else
      match fetch current_url with
      | none => crawlFuel fetch seed maxDepth n (visited ++ [current_url]) rest
      | some response =>
        if raisesForStatus response.status_code then
          crawlFuel fetch seed maxDepth n (visited ++ [current_url]) rest
        else
          match crawlFuel fetch seed maxDepth n (visited ++ [current_url])
              (rest ++ (response.links.filter
                (fun l => decide (l.netloc = seed.netloc))).map
                  (fun l => (l, current_depth + 1))) with
          | none => none
          | some (res, evs) =>
            some (res,
              enqueueEvents (visited ++ [current_url]) rest current_depth
                (response.links.filter (fun l => decide (l.netloc = seed.netloc)))
                ++ evs)

/-- The links that processing `u` would append to the frontier: the page's
links filtered by the netloc comparison against the seed, or nothing when the
fetch raises or `raise_for_status` raises. -/
def linksOf (fetch : Url → Option CrawlResp) (seed : Url) (u : Url) : List Url :=
  match fetch u with
  | none => []
  | some response =>
    if raisesForStatus response.status_code then []
    else response.links.filter (fun l => decide (l.netloc = seed.netloc))

/-- Upper bound on the number of loop iterations caused by one frontier entry
whose remaining depth budget is the second argument. -/
def weight (fetch : Url → Option CrawlResp) (seed : Url) : Url → Nat → Nat
  | _, 0 => 1
  | u, b + 1 =>
    1 + ((linksOf fetch seed u).map (fun l => weight fetch seed l b)).sum

/-- The weight of a frontier entry `(u, d)`: its depth budget is
`maxDepth + 1 - d`, clamped at zero. -/
def entryWeight (fetch : Url → Option CrawlResp) (seed : Url) (maxDepth : Int)
    (e : Url × Int) : Nat :=
  weight fetch seed e.1 (maxDepth + 1 - e.2).toNat

/-- Total weight of a frontier: an upper bound on the remaining number of
loop iterations, strictly decreasing at every iteration. -/
def frontierMeasure (fetch : Url → Option CrawlResp) (seed : Url)
    (maxDepth : Int) (frontier : List (Url × Int)) : Nat :=
  (frontier.map (entryWeight fetch seed maxDepth)).sum

/-- Fuel that provably suffices for the whole crawl from the initial state. -/
def initFuel (fetch : Url → Option CrawlResp) (seed : Url) (maxDepth : Int) : Nat :=
  frontierMeasure fetch seed maxDepth [(seed, 0)] + 1

/-- Embedding of `crawl_website(url, depth)`: run the loop from
`visited = set()` and `to_visit = [(url, 0)]` with sufficient fuel and return
the final visited set (the function's return value). -/
def crawl_website (fetch : Url → Option CrawlResp) (url : Url) (depth : Int) :
    List Url :=
  match crawlFuel fetch url depth (initFuel fetch url depth) [] [(url, 0)] with
  | some p => p.1
  | none => []

/-- The chronological list of all enqueue events of the same run of
`crawl_website(url, depth)`. -/
def crawlEvents (fetch : Url → Option CrawlResp) (url : Url) (depth : Int) :
    List EnqueueEvent :=
  match crawlFuel fetch url depth (initFuel fetch url depth) [] [(url, 0)] with
  | some p => p.2
  | none => []

/-- Concrete seed URL used by the concrete runs below. -/
def exUrl : Url :=
  Url.mk "http" "example.com" "/"

/-- A URL with the seed's netloc but a different scheme. -/
def exUrl2 : Url :=
  Url.mk "https" "example.com" "/s"

/-- A fetch oracle on which every request raises. -/
def noFetch : Url → Option CrawlResp :=
  fun _ => none

/-- A site whose only page links back to itself. -/
def selfLoopFetch : Url → Option CrawlResp :=
  fun u => if u = exUrl then some (CrawlResp.mk 200 [exUrl]) else none

/-- A site whose `http` seed page links to an `https` URL on the same
netloc. -/
def schemeFetch : Url → Option CrawlResp :=
  fun u => if u = exUrl then some (CrawlResp.mk 200 [exUrl2]) else none

/-- A concrete `urljoin` model for the string-level probes: join with a
single slash. -/
def ujSlash (base path : String) : String :=
  base ++ "/" ++ path

/-- A page that contains `wp-content` and whose only meta tag is a
`<meta name="generator">` without a `content` attribute. -/
def wpBadPage : PageResp :=
  PageResp.mk 200 "<html><body>wp-content here</body></html>"
    [MetaTag.mk (some "generator") none]

/-- A scraper fetch oracle serving `wpBadPage` at the scanned URL. -/
def wpBadFetch : String → Option PageResp :=
  fun u => if u = "http://example.com" then some wpBadPage else none

/-- A page whose only meta tag is `<meta name="generator"
content="WordPress 6.2">` and whose body does not contain `wp-content`. -/
def genPage : PageResp :=
  PageResp.mk 200 "<html><head></head></html>"
    [MetaTag.mk (some "generator") (some "WordPress 6.2")]

/-- A scraper fetch oracle serving `genPage` at the scanned URL. -/
def genFetch : String → Option PageResp :=
  fun u => if u = "http://example.com" then some genPage else none

/-- A probe fetch oracle that answers status 403 at the `admin` path and
raises everywhere else. -/
def adminHit403 : String → Option HttpResp :=
  fun u => if u = "http://example.com/admin" then some (HttpResp.mk 403 "") else none

theorem weight_pos (fetch : Url → Option CrawlResp) (seed : Url) (u : Url)
    (b : Nat) : 0 < weight fetch seed u b := by
  cases b <;> simp [weight]

theorem weight_succ (fetch : Url → Option CrawlResp) (seed : Url) (u : Url)
    (b : Nat) :
    weight fetch seed u (b + 1) =
      1 + ((linksOf fetch seed u).map (fun l => weight fetch seed l b)).sum := rfl

theorem frontierMeasure_cons (fetch : Url → Option CrawlResp) (seed : Url)
    (maxDepth : Int) (e : Url × Int) (rest : List (Url × Int)) :
    frontierMeasure fetch seed maxDepth (e :: rest) =
      entryWeight fetch seed maxDepth e + frontierMeasure fetch seed maxDepth rest := by
  simp [frontierMeasure]

theorem frontierMeasure_append (fetch : Url → Option CrawlResp) (seed : Url)
    (maxDepth : Int) (l1 l2 : List (Url × Int)) :
    frontierMeasure fetch seed maxDepth (l1 ++ l2) =
      frontierMeasure fetch seed maxDepth l1 + frontierMeasure fetch seed maxDepth l2 := by
  simp [frontierMeasure]

theorem frontierMeasure_map_links (fetch : Url → Option CrawlResp) (seed : Url)
    (maxDepth d : Int) (links : List Url) :
    frontierMeasure fetch seed maxDepth (links.map (fun l => (l, d + 1))) =
      (links.map (fun l => weight fetch seed l (maxDepth - d).toNat)).sum := by
  have ht : maxDepth + 1 - (d + 1) = maxDepth - d := by omega
  simp only [frontierMeasure, List.map_map, Function.comp_def, entryWeight]
  simp only [ht]

theorem frontierMeasure_cons_pos (fetch : Url → Option CrawlResp) (seed : Url)
    (maxDepth : Int) (e : Url × Int) (rest : List (Url × Int)) :
    0 < frontierMeasure fetch seed maxDepth (e :: rest) := by
  have h := weight_pos fetch seed e.1 (maxDepth + 1 - e.2).toNat
  have hc := frontierMeasure_cons fetch seed maxDepth e rest
  simp only [entryWeight] at hc
  omega

theorem frontierMeasure_step (fetch : Url → Option CrawlResp) (seed : Url)
    (maxDepth : Int) (u : Url) (d : Int) (rest : List (Url × Int))
    (response : CrawlResp) (hf : fetch u = some response)
    (hr : raisesForStatus response.status_code = false)
    (hd : ¬ maxDepth < d) :
    frontierMeasure fetch seed maxDepth
        (rest ++ (response.links.filter
          (fun l => decide (l.netloc = seed.netloc))).map (fun l => (l, d + 1))) + 1 =
      frontierMeasure fetch seed maxDepth ((u, d) :: rest) := by
  have hl : linksOf fetch seed u =
      response.links.filter (fun l => decide (l.netloc = seed.netloc)) := by
    simp [linksOf, hf, hr]
  have ht : (maxDepth + 1 - d).toNat = (maxDepth - d).toNat + 1 := by omega
  rw [frontierMeasure_append, frontierMeasure_map_links, frontierMeasure_cons]
  simp only [entryWeight]
  rw [ht, weight_succ, hl]
  omega

theorem crawlFuel_isSome (fetch : Url → Option CrawlResp) (seed : Url)
    (maxDepth : Int) :
    ∀ (n : Nat) (visited : List Url) (frontier : List (Url × Int)),
      frontierMeasure fetch seed maxDepth frontier < n →
      (crawlFuel fetch seed maxDepth n visited frontier).isSome = true := by
  intro n
  induction n with
  | zero =>
    intro visited frontier h
    omega
  | succ n ih =>
    intro visited frontier h
    match frontier with
    | [] => simp [crawlFuel]
    | (cu, cd) :: rest =>
      have hcons := frontierMeasure_cons fetch seed maxDepth (cu, cd) rest
      have hpos := weight_pos fetch seed cu (maxDepth + 1 - cd).toNat
      have hew : entryWeight fetch seed maxDepth (cu, cd) =
          weight fetch seed cu (maxDepth + 1 - cd).toNat := rfl
      simp only [crawlFuel]
      split
      · exact ih visited rest (by omega)
      · rename_i hc
        have hcd : ¬ maxDepth < cd := fun hh => hc (Or.inr hh)
        split
        · exact ih (visited ++ [cu]) rest (by omega)
        · rename_i response hfe
          split
          · exact ih (visited ++ [cu]) rest (by omega)
          · rename_i hr
            have hr' : raisesForStatus response.status_code = false := by
              cases hx : raisesForStatus response.status_code
              · rfl
              · exact absurd hx hr
            have hmeas := frontierMeasure_step fetch seed maxDepth cu cd rest
              response hfe hr' hcd
            have hsome := ih (visited ++ [cu])
              (rest ++ (response.links.filter
                (fun l => decide (l.netloc = seed.netloc))).map
                  (fun l => (l, cd + 1))) (by omega)
            cases hres : crawlFuel fetch seed maxDepth n (visited ++ [cu])
                (rest ++ (response.links.filter
                  (fun l => decide (l.netloc = seed.netloc))).map
                    (fun l => (l, cd + 1))) with
            | none => rw [hres] at hsome; simp at hsome
            | some p =>
              obtain ⟨p1, p2⟩ := p
              rfl

theorem crawlFuel_run (fetch : Url → Option CrawlResp) (url : Url) (depth : Int) :
    crawlFuel fetch url depth (initFuel fetch url depth) [] [(url, 0)] =
      some (crawl_website fetch url depth, crawlEvents fetch url depth) := by
  have h := crawlFuel_isSome fetch url depth (initFuel fetch url depth) [] [(url, 0)]
    (by simp only [initFuel]; omega)
  cases hres : crawlFuel fetch url depth (initFuel fetch url depth) [] [(url, 0)] with
  | none => rw [hres] at h; simp at h
  | some p =>
    obtain ⟨p1, p2⟩ := p
    simp [crawl_website, crawlEvents, hres]

theorem crawlFuel_visited_mono (fetch : Url → Option CrawlResp) (seed : Url)
    (maxDepth : Int) :
    ∀ (n : Nat) (visited : List Url) (frontier : List (Url × Int))
      (res : List Url) (evs : List EnqueueEvent),
      crawlFuel fetch seed maxDepth n visited frontier = some (res, evs) →
      ∀ u ∈ visited, u ∈ res := by
  intro n
  induction n with
  | zero =>
    intro visited frontier res evs h
    simp [crawlFuel] at h
  | succ n ih =>
    intro visited frontier res evs h u hu
    match frontier with
    | [] =>
      simp only [crawlFuel, Option.some.injEq, Prod.mk.injEq] at h
      exact h.1 ▸ hu
    | (cu, cd) :: rest =>
      simp only [crawlFuel] at h
      split at h
      · exact ih visited rest res evs h u hu
      · split at h
        · exact ih (visited ++ [cu]) rest res evs h u (by simp [hu])
        · rename_i response hfe
          split at h
          · exact ih (visited ++ [cu]) rest res evs h u (by simp [hu])
          · split at h
            · exact absurd h (by simp)
            · rename_i p1 p2 hres
              simp only [Option.some.injEq, Prod.mk.injEq] at h
              exact h.1 ▸ ih (visited ++ [cu]) _ p1 p2 hres u (by simp [hu])

theorem crawlFuel_netloc (fetch : Url → Option CrawlResp) (seed : Url)
    (maxDepth : Int) :
    ∀ (n : Nat) (visited : List Url) (frontier : List (Url × Int))
      (res : List Url) (evs : List EnqueueEvent),
      crawlFuel fetch seed maxDepth n visited frontier = some (res, evs) →
      (∀ v ∈ visited, v.netloc = seed.netloc) →
      (∀ p ∈ frontier, (Prod.fst p).netloc = seed.netloc) →
      ∀ u ∈ res, u.netloc = seed.netloc := by
  intro n
  induction n with
  | zero =>
    intro visited frontier res evs h
    simp [crawlFuel] at h
  | succ n ih =>
    intro visited frontier res evs h hv hfr u hu
    match frontier with
    | [] =>
      simp only [crawlFuel, Option.some.injEq, Prod.mk.injEq] at h
      exact hv u (h.1 ▸ hu)
    | (cu, cd) :: rest =>
      have hcu : cu.netloc = seed.netloc := hfr (cu, cd) (by simp)
      have hrest : ∀ p ∈ rest, (Prod.fst p).netloc = seed.netloc := by
        intro p hp
        exact hfr p (List.mem_cons_of_mem _ hp)
      have hv' : ∀ v ∈ visited ++ [cu], v.netloc = seed.netloc := by
        intro v hvv
        rcases List.mem_append.mp hvv with hvv | hvv
        · exact hv v hvv
        · simp at hvv
          exact hvv ▸ hcu
      simp only [crawlFuel] at h
      split at h
      · exact ih visited rest res evs h hv hrest u hu
      · split at h
        · exact ih (visited ++ [cu]) rest res evs h hv' hrest u hu
        · rename_i response hfe
          split at h
          · exact ih (visited ++ [cu]) rest res evs h hv' hrest u hu
          · split at h
            · exact absurd h (by simp)
            · rename_i p1 p2 hres
              have hfr' : ∀ p ∈ rest ++ (response.links.filter
                  (fun l => decide (l.netloc = seed.netloc))).map
                    (fun l => (l, cd + 1)), (Prod.fst p).netloc = seed.netloc := by
                intro p hp
                rcases List.mem_append.mp hp with hp | hp
                · exact hrest p hp
                · obtain ⟨l, hl, hpl⟩ := List.mem_map.mp hp
                  have hdec := (List.mem_filter.mp hl).2
                  exact hpl ▸ of_decide_eq_true hdec
              simp only [Option.some.injEq, Prod.mk.injEq] at h
              exact ih (visited ++ [cu]) _ p1 p2 hres hv' hfr' u (h.1 ▸ hu)

theorem enqueueEvents_mem (d : Int) :
    ∀ (ls : List Url) (visited : List Url) (frontier : List (Url × Int))
      (e : EnqueueEvent), e ∈ enqueueEvents visited frontier d ls →
      e.url ∈ ls ∧ e.depth = d + 1 := by
  intro ls
  induction ls with
  | nil =>
    intro visited frontier e h
    simp [enqueueEvents] at h
  | cons l ls ih =>
    intro visited frontier e h
    simp only [enqueueEvents, List.mem_cons] at h
    rcases h with h | h
    · subst h
      exact ⟨by simp, rfl⟩
    · obtain ⟨h1, h2⟩ := ih visited (frontier ++ [(l, d + 1)]) e h
      exact ⟨by simp [h1], h2⟩

theorem crawlFuel_events (fetch : Url → Option CrawlResp) (seed : Url)
    (maxDepth : Int) :
    ∀ (n : Nat) (visited : List Url) (frontier : List (Url × Int))
      (res : List Url) (evs : List EnqueueEvent),
      crawlFuel fetch seed maxDepth n visited frontier = some (res, evs) →
      ∀ e ∈ evs, e.url.netloc = seed.netloc ∧ e.depth ≤ maxDepth + 1 := by
  intro n
  induction n with
  | zero =>
    intro visited frontier res evs h
    simp [crawlFuel] at h
  | succ n ih =>
    intro visited frontier res evs h e he
    match frontier with
    | [] =>
      simp only [crawlFuel, Option.some.injEq, Prod.mk.injEq] at h
      rw [← h.2] at he
      simp at he
    | (cu, cd) :: rest =>
      simp only [crawlFuel] at h
      split at h
      · exact ih visited rest res evs h e he
      · rename_i hc
        have hcd : ¬ maxDepth < cd := fun hh => hc (Or.inr hh)
        split at h
        · exact ih (visited ++ [cu]) rest res evs h e he
        · rename_i response hfe
          split at h
          · exact ih (visited ++ [cu]) rest res evs h e he
          · split at h
            · exact absurd h (by simp)
            · rename_i p1 p2 hres
              simp only [Option.some.injEq, Prod.mk.injEq] at h
              rw [← h.2] at he
              rcases List.mem_append.mp he with he | he
              · obtain ⟨hurl, hdep⟩ := enqueueEvents_mem cd _ _ _ e he
                constructor
                · exact of_decide_eq_true (List.mem_filter.mp hurl).2
                · omega
              · exact ih (visited ++ [cu]) _ p1 p2 hres e he

theorem probe_shape (fetch : String → Option HttpResp)
    (uj : String → String → String) (url : String) (cond : HttpResp → Bool)
    (paths : List String) :
    (paths.filterMap fun path =>
      match fetch (uj url path) with
      | none => none
      | some response =>
        if raisesForStatus response.status_code then none
        else if cond response then some (uj url path)
        else none) =
    (paths.map (uj url)).filter fun a =>
      match fetch a with
      | none => false
      | some response => !raisesForStatus response.status_code && cond response := by
  induction paths with
  | nil => rfl
  | cons p ps ih =>
    simp only [List.filterMap_cons, List.map_cons, List.filter_cons]
    cases hf : fetch (uj url p) with
    | none => simpa using ih
    | some response =>
      cases hr : raisesForStatus response.status_code <;>
        cases hc : cond response <;>
          simp [hr, hc, ih]

/-- C1 counterexample: in the concrete crawl of a page that links back to
itself with `maxDepth = 0`, the single enqueue appends a URL that is already
in the visited set at that moment, at depth `1 > maxDepth`; so an enqueue can
violate both the not-already-visited conjunct and the depth conjunct of the
claimed invariant. -/
theorem c1_counterexample :
    crawlEvents selfLoopFetch exUrl 0 = [EnqueueEvent.mk exUrl 1 [exUrl] []] ∧
      exUrl ∈ [exUrl] ∧ (0 : Int) < 1 :=
  ⟨rfl, by decide, by decide⟩

/-- C1 (amended): every enqueue performed by `crawl_website` appends a URL
whose netloc (host and port, not scheme) equals the seed's netloc, at a depth
that is one more than its parent's and hence at most `maxDepth + 1`; no check
against the frontier or the visited set is made at enqueue time, and the
depth may exceed `maxDepth` by one (such entries are discarded at dequeue). -/
theorem c1_enqueue_netloc_depth (fetch : Url → Option CrawlResp) (seed : Url)
    (depth : Int) (e : EnqueueEvent) (he : e ∈ crawlEvents fetch seed depth) :
    e.url.netloc = seed.netloc ∧ e.depth ≤ depth + 1 :=
  crawlFuel_events fetch seed depth (initFuel fetch seed depth) [] [(seed, 0)]
    (crawl_website fetch seed depth) (crawlEvents fetch seed depth)
    (crawlFuel_run fetch seed depth) e he

/-- C1 witness: the amended enqueue property instantiated on the concrete
self-loop crawl. -/
theorem c1_enqueue_netloc_depth_witness :
    (EnqueueEvent.mk exUrl 1 [exUrl] []).url.netloc = exUrl.netloc ∧
      (EnqueueEvent.mk exUrl 1 [exUrl] []).depth ≤ (0 : Int) + 1 :=
  c1_enqueue_netloc_depth selfLoopFetch exUrl 0
    (EnqueueEvent.mk exUrl 1 [exUrl] []) (by decide)

/-- C2 counterexample: crawling an `http` seed whose page links to an `https`
URL on the same netloc puts the `https` URL in the result set, so the result
is not scoped by the full authority (scheme+host+port) — the scheme is not
compared. -/
theorem c2_counterexample :
    exUrl2 ∈ crawl_website schemeFetch exUrl 1 ∧
      ¬ exUrl2.scheme = exUrl.scheme :=
  ⟨by decide, by decide⟩

/-- C2 (amended): every URL in the set returned by `crawl_website` has the
seed's netloc (host and port); the scheme is not compared and may differ. -/
theorem c2_result_netloc (fetch : Url → Option CrawlResp) (seed : Url)
    (depth : Int) (u : Url) (hu : u ∈ crawl_website fetch seed depth) :
    u.netloc = seed.netloc := by
  refine crawlFuel_netloc fetch seed depth (initFuel fetch seed depth) []
    [(seed, 0)] (crawl_website fetch seed depth) (crawlEvents fetch seed depth)
    (crawlFuel_run fetch seed depth) ?_ ?_ u hu
  · intro v hv
    exact absurd hv (List.not_mem_nil v)
  · intro p hp
    have hps : p = (seed, 0) := by simpa using hp
    rw [hps]

/-- C2 witness: the amended netloc property instantiated on the concrete
cross-scheme crawl. -/
theorem c2_result_netloc_witness : exUrl2.netloc = exUrl.netloc :=
  c2_result_netloc schemeFetch exUrl 1 exUrl2 (by decide)

/-- C3: a dequeued pair whose depth exceeds `maxDepth` is discarded: the run
continues on the remaining frontier with the visited set unchanged, no fetch
of the pair's URL is triggered by it, no enqueue events are produced for it,
and the popped URL is not marked visited on its account. -/
theorem c3_deep_dequeue_skipped (fetch : Url → Option CrawlResp) (seed : Url)
    (maxDepth : Int) (n : Nat) (visited : List Url) (u : Url) (d : Int)
    (rest : List (Url × Int)) (h : maxDepth < d) :
    crawlFuel fetch seed maxDepth (n + 1) visited ((u, d) :: rest) =
      crawlFuel fetch seed maxDepth n visited rest := by
  simp only [crawlFuel]
  rw [if_pos (Or.inr h)]

/-- C3 witness: the skip equation instantiated on a concrete too-deep
dequeue. -/
theorem c3_deep_dequeue_skipped_witness :
    crawlFuel noFetch exUrl 0 (1 + 1) [] [(exUrl, 1)] =
      crawlFuel noFetch exUrl 0 1 [] [] :=
  c3_deep_dequeue_skipped noFetch exUrl 0 1 [] exUrl 1 [] (by decide)

/-- C4: for every fetch oracle (every page yields a finite list of links),
every seed and every depth bound, the crawl loop terminates: some finite fuel
makes `crawlFuel` reach the empty frontier and return the set that
`crawl_website` returns. -/
theorem c4_crawl_terminates (fetch : Url → Option CrawlResp) (seed : Url)
    (depth : Int) :
    ∃ (n : Nat) (p : List Url × List EnqueueEvent),
      crawlFuel fetch seed depth n [] [(seed, 0)] = some p ∧
        p.1 = crawl_website fetch seed depth :=
  ⟨initFuel fetch seed depth,
    (crawl_website fetch seed depth, crawlEvents fetch seed depth),
    crawlFuel_run fetch seed depth, rfl⟩

/-- C5: for every fetch oracle and every `depth ≥ 0`, the set returned by
`crawl_website` contains the seed URL itself, whether or not the fetch of the
seed succeeds. -/
theorem c5_crawl_contains_seed (fetch : Url → Option CrawlResp) (seed : Url)
    (depth : Int) (h : 0 ≤ depth) : seed ∈ crawl_website fetch seed depth := by
  have hrun := crawlFuel_run fetch seed depth
  simp only [initFuel] at hrun
  simp only [crawlFuel] at hrun
  split at hrun
  · rename_i hcond
    rcases hcond with hcond | hcond
    · exact absurd hcond (List.not_mem_nil seed)
    · omega
  · split at hrun
    · exact crawlFuel_visited_mono fetch seed depth _ ([] ++ [seed]) [] _ _ hrun
        seed (by simp)
    · rename_i response hfe
      split at hrun
      · exact crawlFuel_visited_mono fetch seed depth _ ([] ++ [seed]) [] _ _ hrun
          seed (by simp)
      · split at hrun
        · exact absurd hrun (by simp)
        · rename_i p1 p2 hres
          simp only [Option.some.injEq, Prod.mk.injEq] at hrun
          exact hrun.1 ▸ crawlFuel_visited_mono fetch seed depth _ ([] ++ [seed])
            _ p1 p2 hres seed (by simp)

/-- C5 witness: the seed-membership property instantiated on a concrete
crawl in which every fetch raises. -/
theorem c5_crawl_contains_seed_witness : exUrl ∈ crawl_website noFetch exUrl 0 :=
  c5_crawl_contains_seed noFetch exUrl 0 (by decide)

/-- C6: on a page that contains `wp-content` and whose only
`<meta name="generator">` tag has no `content` attribute, the version scraper
raises a `KeyError` (from `generator_tag['content']`) that is not caught by
the surrounding `except requests.exceptions.RequestException` handler and so
escapes the component — contradicting the claim that every per-request error
is absorbed and a normal findings list is returned. -/
theorem c6_keyerror_escapes :
    get_installed_software_versions wpBadFetch ujSlash "http://example.com" =
      Except.error "KeyError: content" := rfl

/-- C7 counterexample: a fetch that returns (does not raise) with status 403
at the `admin` path produces no hit, because `raise_for_status` raises on 403
before the `status in (200, 403)` check can run; so "hit iff fetch does not
raise and status is 200 or 403" is false as stated. -/
theorem c7_counterexample :
    adminHit403 (ujSlash "http://example.com" "admin") = some (HttpResp.mk 403 "") ∧
      check_admin_panels adminHit403 ujSlash "http://example.com" = [] :=
  ⟨rfl, rfl⟩

/-- C7 (amended): the admin-panel probe records a path as a hit iff its fetch
does not raise, its status also passes `raise_for_status` (is not 4xx/5xx),
and the status is 200 or 403 — so a 403 response is never actually recorded;
hits are listed in input path order and a fetch exception at one path does
not affect the other paths. -/
theorem c7_admin_hits_characterization (fetch : String → Option HttpResp)
    (uj : String → String → String) (url : String) :
    check_admin_panels fetch uj url =
      (admin_paths.map (uj url)).filter fun a =>
        match fetch a with
        | none => false
        | some response =>
          !raisesForStatus response.status_code &&
            (response.status_code == 200 || response.status_code == 403) :=
  probe_shape fetch uj url
    (fun response => response.status_code == 200 || response.status_code == 403)
    admin_paths

/-- C8: the exposed-file probe returns exactly the resolved URLs whose fetch
returned without raising, whose status passes `raise_for_status` (the code's
notion of an HTTP success status: not 4xx/5xx), and whose body contains the
literal `APP_KEY`, in input path order; fetch exceptions yield no hit and no
propagated error. -/
theorem c8_env_hits_characterization (fetch : String → Option HttpResp)
    (uj : String → String → String) (url : String) :
    check_env_files fetch uj url =
      (env_paths.map (uj url)).filter fun a =>
        match fetch a with
        | none => false
        | some response =>
          !raisesForStatus response.status_code && strHas response.text "APP_KEY" :=
  probe_shape fetch uj url (fun response => strHas response.text "APP_KEY")
    env_paths

/-- C9: on every page whose meta tags are exactly one
`<meta name="generator" content="WordPress 6.2">` and whose body does not
contain `wp-content`, the scraper returns exactly the one finding
`Generator: WordPress 6.2` — and since this holds for every fetch oracle
agreeing on the page URL alone, the `wp-includes/version.php` fetch is never
consulted. -/
theorem c9_single_generator_finding (fetch : String → Option PageResp)
    (uj : String → String → String) (url : String) (r : PageResp)
    (hf : fetch url = some r) (hs : raisesForStatus r.status_code = false)
    (hm : r.metas = [MetaTag.mk (some "generator") (some "WordPress 6.2")])
    (hw : strHas r.text "wp-content" = false) :
    get_installed_software_versions fetch uj url =
      Except.ok ["Generator: WordPress 6.2"] := by
  have hg : generatorFindings [MetaTag.mk (some "generator") (some "WordPress 6.2")] =
      ["Generator: WordPress 6.2"] := rfl
  simp [get_installed_software_versions, hf, hs, hw, hm, hg, finishVersionInfo]

/-- C9 witness: the single-finding property instantiated on a concrete page
and oracle. -/
theorem c9_single_generator_finding_witness :
    get_installed_software_versions genFetch ujSlash "http://example.com" =
      Except.ok ["Generator: WordPress 6.2"] :=
  c9_single_generator_finding genFetch ujSlash "http://example.com" genPage
    rfl rfl rfl rfl

/-- C10: for every fetch oracle and every negative depth bound,
`crawl_website` returns the empty set: the seed is dequeued at depth 0, fails
the `current_depth > depth` check, and is discarded without being visited. -/
theorem c10_negative_depth_empty (fetch : Url → Option CrawlResp) (seed : Url)
    (depth : Int) (h : depth < 0) : crawl_website fetch seed depth = [] := by
  have hrun := crawlFuel_run fetch seed depth
  have hpos := frontierMeasure_cons_pos fetch seed depth (seed, 0) []
  obtain ⟨k, hk⟩ : ∃ k, frontierMeasure fetch seed depth [(seed, 0)] = k + 1 :=
    ⟨frontierMeasure fetch seed depth [(seed, 0)] - 1, by omega⟩
  simp only [initFuel, hk] at hrun
  simp only [crawlFuel] at hrun
  rw [if_pos (Or.inr h)] at hrun
  simp only [Option.some.injEq, Prod.mk.injEq] at hrun
  exact hrun.1.symm

/-- C10 witness: the negative-depth property instantiated at depth `-1`. -/
theorem c10_negative_depth_empty_witness :
    crawl_website noFetch exUrl (-1) = [] :=
  c10_negative_depth_empty noFetch exUrl (-1) (by decide)
